import Mathlib

/-!
Verification of the anomaly-detection and risk-scoring pipeline of the
SuspiciousLoginAnalyzer repository.

The Python sources are shallowly embedded:
- tables become lists of rows (tuples or structures) over `ℚ`;
- `pandas` left merges on a unique key become `List.lookup`;
- fallible file reads become `Except String` values;
- the fitted scikit-learn detectors and classifier are deterministic
  per-point scoring functions once fitted, so they are embedded as function
  parameters of the pipeline; the float/transcendental parts (haversine,
  standard deviations) are embedded over `ℝ` where exact values matter.
-/

namespace Features

/-- One output row of `build_user_features` (ml/features.py).  In the branch
where the base table is `users_dist`, pandas suffixes the duplicated
`DistinctComputers` column produced by the self-merge; the field values are
unchanged, so the embedding keeps a single field. -/
structure FeatRow where
  user : String
  totalEvents : ℚ
  distinctComputers : ℚ
  topPairEvents : ℚ
  numPairs : ℚ
  hotPairOver25k : ℚ
  deriving DecidableEq, Repr

/-- Embedding of `_safe_read_csv` (ml/features.py lines 6-10): any read/parse failure is
turned into an empty table. -/
def safe_read_csv {α : Type} (r : Except String (List α)) : List α :=
  match r with
  | .ok t => t
  | .error _ => []

/-- A row of `TopUsers_ByEvents.csv` / `TopUsers_ByDistinctComputers.csv`:
(User, numeric value). -/
abbrev UserStat := String × ℚ

/-- A row of `TopUserComputerPairs.csv`: (User, Computer, Events). -/
abbrev PairRow := String × String × ℚ

/-- Group-by max of `Events` over one user of the pair table; `none` models
the NaN a left merge produces for a base user absent from the pair table. -/
def topPairEventsOf (pairs : List PairRow) (u : String) : Option ℚ :=
  match (pairs.filter (fun p => p.1 == u)).map (fun p => p.2.2) with
  | [] => none
  | x :: xs => some (xs.foldl max x)

/-- Group-by count of pair rows for one user, `none` when the user has no
pair rows (left-merge NaN). -/
def numPairsOf (pairs : List PairRow) (u : String) : Option ℚ :=
  match pairs.filter (fun p => p.1 == u) with
  | [] => none
  | l => some (l.length : ℚ)

/-- The base population (ml/features.py lines 29-39): the first non-empty
table in the order events, distinct-hosts, pairs, as (User, TotalEvents)
rows.  `List.dedup` stands for `pandas.unique` (it keeps the last
occurrence instead of the first: only the presentation order differs). -/
def baseOf (users_dist users_events : List UserStat)
    (pairs : List PairRow) : List (String × ℚ) :=
  if users_events ≠ [] then users_events
  else if users_dist ≠ [] then users_dist.map (fun r => (r.1, 0))
  else ((pairs.map (fun p => p.1)).dedup).map (fun u => (u, 0))

/-- One output row built from a base row (lines 41-69): left merges on
`User` with missing values filled with 0, and the `HotPairOver25k`
indicator. -/
def mkRow (users_dist : List UserStat) (pairs : List PairRow)
    (r : String × ℚ) : FeatRow :=
  let dist : Option ℚ :=
    if users_dist ≠ [] then List.lookup r.1 users_dist else some 0
  let tpe : Option ℚ :=
    if pairs ≠ [] then topPairEventsOf pairs r.1 else some 0
  let np : Option ℚ :=
    if pairs ≠ [] then numPairsOf pairs r.1 else some 0
  { user := r.1
    totalEvents := r.2
    distinctComputers := dist.getD 0
    topPairEvents := tpe.getD 0
    numPairs := np.getD 0
    hotPairOver25k := if tpe.getD 0 > 25000 then 1 else 0 }

/-- Embedding of `build_user_features` (ml/features.py lines 12-71): empty output when
every source is empty, else one row per base user with the left merges
attached (`List.lookup`, faithful when the source tables have unique
users, which the group-by reports guarantee). -/
def build_user_features (users_dist users_events : List UserStat)
    (pairs : List PairRow) : List FeatRow :=
  if users_dist = [] ∧ users_events = [] ∧ pairs = [] then []
  else (baseOf users_dist users_events pairs).map (mkRow users_dist pairs)

/-- The composition of `build_user_features` with the results of the three
`_safe_read_csv` reads. -/
def build_user_features_from_reads (rd re : Except String (List UserStat))
    (rp : Except String (List PairRow)) : List FeatRow :=
  build_user_features (safe_read_csv rd) (safe_read_csv re) (safe_read_csv rp)

end Features

namespace TrainUnsupervised

/-- Embedding of `np.nanmin` over a non-empty score list (0 is junk for the empty list,
which `train_models` never produces from a non-empty population). -/
def listMin (l : List ℚ) : ℚ :=
  match l with
  | [] => 0
  | x :: xs => xs.foldl min x

/-- Embedding of `np.nanmax` over a non-empty score list. -/
def listMax (l : List ℚ) : ℚ :=
  match l with
  | [] => 0
  | x :: xs => xs.foldl max x

/-- The inner `norm` of `train_models` (ml/train_unsupervised.py lines
87-92): min-max normalization with the degenerate case `hi <= lo` mapped to
the all-zero vector. -/
def norm (a : List ℚ) : List ℚ :=
  let lo := listMin a
  let hi := listMax a
  if hi ≤ lo then a.map (fun _ => 0)
  else a.map (fun x => (x - lo) / (hi - lo))

/-- The score table built by `train_models` (lines 94-97). -/
structure ScoreTable where
  users : List String
  iforestScore : List ℚ
  ocsvmScore : List ℚ
  ensembleScore : List ℚ
  deriving Repr

/-- One feature row handed to the detectors: the `[TotalEvents,
DistinctComputers]` vector. -/
abbrev FeatVec := List ℚ

/-- Embedding of `train_models` (ml/train_unsupervised.py lines 64-105).  A fitted
`StandardScaler`/`IsolationForest`/`OneClassSVM` stack scores each point
deterministically, so the composite per-point raw scorers
`-iforest.score_samples` and `-ocsvm.score_samples` (applied after the
scaler transform) are the parameters `ifScore` and `svmScore`. -/
def train_models (ifScore svmScore : FeatVec → ℚ)
    (users : List String) (rows : List FeatVec) : ScoreTable :=
  let if_scores := rows.map ifScore
  let svm_scores := rows.map svmScore
  let ifn := norm if_scores
  let svmn := norm svm_scores
  { users := users
    iforestScore := ifn
    ocsvmScore := svmn
    ensembleScore := norm ((ifn.zip svmn).map (fun p => (p.1 + p.2) / 2)) }

end TrainUnsupervised

namespace TrainSupervised

/-- The labels CSV as read: its column names and its (User, label) rows
(rows are read through the named columns, so they are meaningful only when
the required columns are present). -/
structure LabelsCsv where
  cols : List String
  rows : List (String × ℤ)
  deriving Repr

/-- The feature vector used as `X_cols` (all non-User, non-label columns of
the joined table). -/
def featVec (f : Features.FeatRow) : List ℚ :=
  [f.totalEvents, f.distinctComputers, f.topPairEvents, f.numPairs,
   f.hotPairOver25k]

/-- Input validation of `main` (ml/train_supervised.py lines 23-35): a
failed read of the labels file, a labels file without the `User` and
`label` columns, and an empty feature/label inner join are each fatal
(`sys.exit`); otherwise the joined rows are returned.  The inner join is
`List.lookup` per feature row (faithful for unique label users). -/
def supervised_load (feats : List Features.FeatRow)
    (labelsRead : Except String LabelsCsv) :
    Except String (List (Features.FeatRow × ℤ)) :=
  match labelsRead with
  | .error e => .error ("Missing or unreadable labels file: " ++ e)
  | .ok labels =>
    if ¬ ("User" ∈ labels.cols ∧ "label" ∈ labels.cols) then
      .error "labels.csv must contain columns: User,label"
    else
      let joined := feats.filterMap
        (fun f => (List.lookup f.user labels.rows).map (fun l => (f, l)))
      if joined = [] then .error "No overlap between features and labels on User."
      else .ok joined

/-- Embedding of `can_stratify` (line 48): both classes present (`len(unique) == 2`) and
the rarer class has at least 2 examples (`min(counts) >= 2`). -/
def canStratify (y : List ℤ) : Bool :=
  y.dedup.length = 2 ∧ 2 ≤ ((y.dedup.map (fun c => y.count c)).min?.getD 0)

/-- Embedding of `test_size` (line 49): 0.3 from 4 labeled examples on, 0.5 below. -/
def testSize (y : List ℤ) : ℚ :=
  if 4 ≤ y.length then 3 / 10 else 1 / 2

/-- The split decision of lines 51-64. -/
inductive SplitPlan where
  | fitAll
  | holdOut (testSize : ℚ) (stratified : Bool) (warned : Bool)
  deriving DecidableEq, Repr

/-- Lines 51-64: fewer than 3 labeled examples fit on all labeled data with
no held-out set; otherwise `train_test_split` runs with `test_size`,
stratified exactly when `can_stratify`, and the non-stratified fallback is
surfaced as a printed warning. -/
def splitPlan (y : List ℤ) : SplitPlan :=
  if y.length < 3 then .fitAll
  else .holdOut (testSize y) (canStratify y) (!canStratify y)

/-- Per-column mean of a list of values. -/
def meanQ (l : List ℚ) : ℚ := l.sum / (l.length : ℚ)

/-- Population variance (`StandardScaler` uses ddof = 0). -/
def popVar (l : List ℚ) : ℚ :=
  (l.map (fun x => (x - meanQ l) ^ 2)).sum / (l.length : ℚ)

/-- Column `j` of a row-major matrix. -/
def column (m : List (List ℚ)) (j : ℕ) : List ℚ :=
  m.map (fun r => r.getD j 0)

/-- Embedding of `StandardScaler.transform` relative to the matrix the scaler was fitted
on: per column, subtract the mean and divide by the standard deviation,
with a zero-variance column scaled by 1 (sklearn `_handle_zeros_in_scale`). -/
noncomputable def scalerTransform (fit : List (List ℚ)) (x : List ℚ) : List ℝ :=
  (List.range (fit.headD []).length).map (fun j =>
    let col := column fit j
    ((x.getD j 0 : ℚ) - meanQ col) /
      (if popVar col = 0 then (1 : ℝ) else Real.sqrt (popVar col)))

/-- The deterministic parts of `main` that the embedding abstracts: the
seeded `train_test_split` permutation (numpy RNG, external) and the fitted
`RandomForestClassifier.predict_proba` applied as `predict_proba(x)[:, 1]`
(a deterministic per-point function of the standardized training data and
labels once fitted).  `proba` is consulted only where the real composite is
defined: on a forest fitted on single-class labels `predict_proba` has one
column and `[:, 1]` raises IndexError, which `supervised_main` models as an
explicit error branch before any call to `proba`. -/
structure SupParams where
  split : List (List ℚ) → List ℤ → ℚ → Bool →
    (List (List ℚ) × List (List ℚ) × List ℤ × List ℤ)
  proba : List (List ℝ) → List ℤ → List ℝ → ℝ

/-- The smallest class size, `min(counts)` over the classes present in `y`
(0 for an empty `y`). -/
def minClassCount (y : List ℤ) : ℕ :=
  (y.dedup.map (fun c => y.count c)).min?.getD 0

/-- The `X` matrix of the joined table (line 39). -/
def joinedX (joined : List (Features.FeatRow × ℤ)) : List (List ℚ) :=
  joined.map (fun p => featVec p.1)

/-- The `y` vector of the joined table (line 40). -/
def joinedY (joined : List (Features.FeatRow × ℤ)) : List ℤ :=
  joined.map (fun p => p.2)

/-- Lines 51-62: the `(Xtr, Xte, ytr, yte)` quadruple — all labeled data
with an empty test part when no split is made, else the seeded
`train_test_split` result. -/
def splitParts (P : SupParams) (joined : List (Features.FeatRow × ℤ)) :
    List (List ℚ) × List (List ℚ) × List ℤ × List ℤ :=
  match splitPlan (joinedY joined) with
  | .fitAll => (joinedX joined, ([] : List (List ℚ)), joinedY joined,
      ([] : List ℤ))
  | .holdOut ts strat _ => P.split (joinedX joined) (joinedY joined) ts strat

/-- The training labels the classifier is fitted on (line 75). -/
def ytrOf (P : SupParams) (joined : List (Features.FeatRow × ℤ)) : List ℤ :=
  (splitParts P joined).2.2.1

/-- What a run of `main` produces and which data each artifact was fitted
on. -/
structure SupResult where
  plan : SplitPlan
  cvRan : Bool
  scalerFinalFit : List (List ℚ)
  users : List String
  probs : List ℝ

/-- Embedding of `main` (ml/train_supervised.py lines 18-106) after feature
building: validation (lines 23-35), split policy (lines 43-64), scaler fit
on the training split (line 68), classifier fit (line 75), the held-out
report when a test set exists (lines 78-87), the optional 5-fold CV which
re-fits the scaler on the full labeled matrix `X` (lines 90-95), and the
final scoring pass over the whole feature table with the scaler in
whatever state it was left (line 100).  Three numeric error paths of the
program are uncaught and abort the run, in program order: a classifier
fitted on single-class `ytr` makes `predict_proba(Xte)[:, 1]` raise
IndexError at line 80 (reached only when a test set exists); when the CV
branch runs, `cross_val_score` with `StratifiedKFold(n_splits=5)` raises
ValueError at line 93 whenever some class has fewer than 5 members (the
`try`/`except` of lines 84-87 wraps only `roc_auc_score`); and a
single-class fit that reached line 101 makes `predict_proba(Xall)[:, 1]`
raise IndexError there.  `scalerFinalFit` records the data of the last
scaler `fit` call before the final `transform`. -/
noncomputable def supervised_main (P : SupParams)
    (feats : List Features.FeatRow) (labelsRead : Except String LabelsCsv) :
    Except String SupResult :=
  match supervised_load feats labelsRead with
  | .error e => .error e
  | .ok joined =>
    let X := joinedX joined
    let y := joinedY joined
    let Xtr := (splitParts P joined).1
    let ytr := ytrOf P joined
    if 3 ≤ y.length ∧ ytr.dedup.length < 2 then
      .error "IndexError: index 1 is out of bounds for axis 1 with size 1"
    else if (5 ≤ y.length ∧ 1 < y.dedup.length) ∧ minClassCount y < 5 then
      .error "ValueError: n_splits=5 cannot be greater than the number of members in each class."
    else if ytr.dedup.length < 2 then
      .error "IndexError: index 1 is out of bounds for axis 1 with size 1"
    else
      let finalFit := if 5 ≤ y.length ∧ 1 < y.dedup.length then X else Xtr
      .ok { plan := splitPlan y
            cvRan := 5 ≤ y.length ∧ 1 < y.dedup.length
            scalerFinalFit := finalFit
            users := feats.map (fun f => f.user)
            probs := feats.map (fun f =>
              P.proba (Xtr.map (scalerTransform Xtr)) ytr
                (scalerTransform finalFit (featVec f))) }

end TrainSupervised

namespace EnrichTimeGeo

/-- Embedding of `haversine_km` (analysis/enrich_time_geo.py lines 16-22): great-circle
distance under the spherical-earth approximation, mean radius 6371 km. -/
noncomputable def haversine_km (lat1 lon1 lat2 lon2 : ℝ) : ℝ :=
  let R : ℝ := 6371
  let phi1 := lat1 * (Real.pi / 180)
  let phi2 := lat2 * (Real.pi / 180)
  let dphi := (lat2 - lat1) * (Real.pi / 180)
  let dlmb := (lon2 - lon1) * (Real.pi / 180)
  let a := Real.sin (dphi / 2) ^ 2 +
    Real.cos phi1 * Real.cos phi2 * Real.sin (dlmb / 2) ^ 2
  2 * R * Real.arcsin (Real.sqrt a)

/-- One parsed row of the input CSV.  `ts` is the UTC timestamp measured in
hours; `country`, `lat`, `lon` are per-row nullable. -/
structure LoginEvent where
  user : String
  ts : ℚ
  country : Option String
  lat : Option ℚ
  lon : Option ℚ
  deriving DecidableEq, Repr

/-- The input table: which optional columns exist, plus the rows.  The
`Lat`/`Lon` columns travel together (the script treats them as a pair). -/
structure EventsTable where
  hasCountry : Bool
  hasLatLon : Bool
  rows : List LoginEvent
  deriving DecidableEq, Repr

/-- One enriched output row: the input fields plus `Hour`, `HourZ`,
`SpeedKmh`, `GeoJumpFlag`. -/
structure OutRow where
  user : String
  ts : ℚ
  country : Option String
  lat : Option ℚ
  lon : Option ℚ
  hour : ℤ
  hourZ : ℝ
  speed : Option (WithTop ℚ)
  geoJump : Bool

/-- The enriched output table. -/
structure OutTable where
  hasCountry : Bool
  hasLatLon : Bool
  rows : List OutRow

/-- The hour bucket `df["Timestamp"].dt.hour` for a timestamp in hours. -/
def hourOf (e : LoginEvent) : ℤ := ⌊e.ts⌋ % 24

/-- Stable insertion of an event into a timestamp-sorted list. -/
def insertByTs (a : LoginEvent) : List LoginEvent → List LoginEvent
  | [] => [a]
  | b :: t => if a.ts ≤ b.ts then a :: b :: t else b :: insertByTs a t

/-- Embedding of `sort_values("Timestamp")` within one user group (stable insertion
sort; the claims do not depend on the order of timestamp ties). -/
def sortByTs (l : List LoginEvent) : List LoginEvent :=
  l.foldr insertByTs []

/-- The `Count` column of `hour_counts` restricted to one user: the event
count of each hour bucket that user occupies (lines 41-44). -/
def bucketCounts (hours : List ℤ) : List ℚ :=
  hours.dedup.map (fun h => (hours.count h : ℚ))

/-- Mean of a list of counts. -/
def meanQ (l : List ℚ) : ℚ := l.sum / (l.length : ℚ)

/-- Sum of squared deviations from the mean. -/
def ssqOf (l : List ℚ) : ℚ := (l.map (fun x => (x - meanQ l) ^ 2)).sum

/-- Sample variance (pandas `std` uses ddof = 1). -/
def sampleVar (l : List ℚ) : ℚ := ssqOf l / ((l.length : ℚ) - 1)

/-- The `HourZ` of a bucket with count `c` among the bucket counts of one user (lines
45-46): `(Count - mean) / std`, where a `std` of 0 is replaced by NaN
(`ssqOf = 0` with at least two buckets) and the NaN std of a single bucket
(pandas ddof = 1) also yields NaN; `fillna(0)` maps both cases to 0. -/
noncomputable def hourZ (counts : List ℚ) (c : ℚ) : ℝ :=
  if counts.length ≤ 1 ∨ ssqOf counts = 0 then 0
  else ((c : ℝ) - (meanQ counts : ℝ)) / Real.sqrt (sampleVar counts)

/-- The distance function is a parameter of the per-user pass: the script
passes `haversine_km`, whose transcendental values live in `ℝ`; the claims
hold for every distance function. -/
abbrev DistFn := ℚ × ℚ → ℚ × ℚ → ℚ

/-- The body of the loop of `calc_speed` (lines 58-64) for one event and
its `shift(1)` predecessor: rows where any of `Lat`, `Lon`, `Lat_prev`,
`Lon_prev`, `ts_prev` is null keep a null speed; otherwise the distance
over the elapsed hours, infinite when the elapsed time is not positive. -/
def speedOf (d : DistFn) (p : Option LoginEvent) (e : LoginEvent) :
    Option (WithTop ℚ) :=
  match p with
  | none => none
  | some pe =>
    match pe.lat, pe.lon, e.lat, e.lon with
    | some la1, some lo1, some la2, some lo2 =>
      let dt := e.ts - pe.ts
      some (if 0 < dt then ((d (la1, lo1) (la2, lo2) / dt : ℚ) : WithTop ℚ)
            else ⊤)
    | _, _, _, _ => none

/-- The `GeoJumpFlag` (line 70): `(SpeedKmh > 900).fillna(False)` — null speeds
compare as false, an infinite speed exceeds 900. -/
def geoJumpOf (s : Option (WithTop ℚ)) : Bool :=
  match s with
  | none => false
  | some v => 900 < v

/-- Embedding of `calc_speed` over one user timestamp-sorted group: pair each event
with its `shift(1)` predecessor. -/
def chainSpeeds (d : DistFn) (l : List LoginEvent) : List (Option (WithTop ℚ)) :=
  ((none :: l.map some).zip l).map (fun pr => speedOf d pr.1 pr.2)

/-- One user group: sort by timestamp (line 54), attach `Hour` and `HourZ`
(lines 38-48), and the speed chain when the `Lat`/`Lon` columns exist,
else a uniformly null speed column (lines 51-73). -/
noncomputable def processUser (d : DistFn) (hasLatLon : Bool)
    (evs : List LoginEvent) : List OutRow :=
  let sorted := sortByTs evs
  let hours := sorted.map hourOf
  let counts := bucketCounts hours
  let speeds := if hasLatLon then chainSpeeds d sorted
                else sorted.map (fun _ => none)
  (sorted.zip speeds).map (fun p =>
    { user := p.1.user
      ts := p.1.ts
      country := p.1.country
      lat := p.1.lat
      lon := p.1.lon
      hour := hourOf p.1
      hourZ := hourZ counts ((hours.count (hourOf p.1) : ℚ))
      speed := p.2
      geoJump := geoJumpOf p.2 })

/-- The event carried by an output row (the own fields of the input). -/
def eventOf (r : OutRow) : LoginEvent :=
  { user := r.user, ts := r.ts, country := r.country, lat := r.lat,
    lon := r.lon }

/-- What the final column selection (lines 76-77) does to a row when the
`Country` column is absent: the `Country`, `Lat` and `Lon` columns are not
written. -/
def stripGeo (r : OutRow) : OutRow :=
  { r with country := none, lat := none, lon := none }

/-- The same dropping of columns on an input event, for stating which
fields survive. -/
def stripGeoEvent (e : LoginEvent) : LoginEvent :=
  { e with country := none, lat := none, lon := none }

/-- The script body (analysis/enrich_time_geo.py lines 32-77) on a parsed
table: group by user, enrich every group, then write the selected columns.
The selection list is chosen by `"Country" in df.columns` alone: with
`Country` present but `Lat`/`Lon` absent it names the missing `Lat`/`Lon`
columns and pandas raises `KeyError`; with `Country` absent the written
file drops `Country`, `Lat` and `Lon` even when `Lat`/`Lon` exist. -/
noncomputable def enrich_time_geo (d : DistFn) (t : EventsTable) :
    Except String OutTable :=
  let users := (t.rows.map (fun e => e.user)).dedup
  let rows := users.flatMap
    (fun u => processUser d t.hasLatLon (t.rows.filter (fun e => e.user == u)))
  if t.hasCountry then
    if t.hasLatLon then .ok { hasCountry := true, hasLatLon := true, rows := rows }
    else .error "KeyError: Lat, Lon not in columns"
  else .ok { hasCountry := false, hasLatLon := false, rows := rows.map stripGeo }

end EnrichTimeGeo

namespace TrainUnsupervised

theorem foldl_min_le_init (xs : List ℚ) (a : ℚ) : xs.foldl min a ≤ a := by
  induction xs generalizing a with
  | nil => exact le_rfl
  | cons b t ih =>
    exact le_trans (ih (min a b)) (min_le_left a b)

theorem foldl_min_le_mem (xs : List ℚ) (a : ℚ) {x : ℚ} (hx : x ∈ xs) :
    xs.foldl min a ≤ x := by
  induction xs generalizing a with
  | nil => cases hx
  | cons b t ih =>
    rcases List.mem_cons.mp hx with h | h
    · subst h
      exact le_trans (foldl_min_le_init t (min a x)) (min_le_right a x)
    · exact ih (min a b) h

theorem init_le_foldl_max (xs : List ℚ) (a : ℚ) : a ≤ xs.foldl max a := by
  induction xs generalizing a with
  | nil => exact le_rfl
  | cons b t ih =>
    exact le_trans (le_max_left a b) (ih (max a b))

theorem mem_le_foldl_max (xs : List ℚ) (a : ℚ) {x : ℚ} (hx : x ∈ xs) :
    x ≤ xs.foldl max a := by
  induction xs generalizing a with
  | nil => cases hx
  | cons b t ih =>
    rcases List.mem_cons.mp hx with h | h
    · subst h
      exact le_trans (le_max_right a x) (init_le_foldl_max t (max a x))
    · exact ih (max a b) h

theorem listMin_le {l : List ℚ} {x : ℚ} (hx : x ∈ l) : listMin l ≤ x := by
  cases l with
  | nil => cases hx
  | cons a t =>
    rcases List.mem_cons.mp hx with h | h
    · subst h; exact foldl_min_le_init t x
    · exact foldl_min_le_mem t a h

theorem le_listMax {l : List ℚ} {x : ℚ} (hx : x ∈ l) : x ≤ listMax l := by
  cases l with
  | nil => cases hx
  | cons a t =>
    rcases List.mem_cons.mp hx with h | h
    · subst h; exact init_le_foldl_max t x
    · exact mem_le_foldl_max t a h

theorem norm_bounds {l : List ℚ} {x : ℚ} (hx : x ∈ norm l) : 0 ≤ x ∧ x ≤ 1 := by
  unfold norm at hx
  by_cases h : listMax l ≤ listMin l
  · simp only [h, if_pos] at hx
    rcases List.mem_map.mp hx with ⟨v, _, hv⟩
    simp [← hv]
  · simp only [h, if_neg, not_false_iff] at hx
    rcases List.mem_map.mp hx with ⟨v, hv, rfl⟩
    have hlo : listMin l ≤ v := listMin_le hv
    have hhi : v ≤ listMax l := le_listMax hv
    have hpos : 0 < listMax l - listMin l := by
      have := lt_of_not_le h
      linarith
    constructor
    · exact div_nonneg (by linarith) (le_of_lt hpos)
    · rw [div_le_one hpos]
      linarith

theorem foldl_min_const {c : ℚ} {xs : List ℚ} (h : ∀ y ∈ xs, y = c) :
    xs.foldl min c = c := by
  induction xs with
  | nil => rfl
  | cons b t ih =>
    have hb : b = c := h b (List.mem_cons_self b t)
    subst hb
    simp only [List.foldl_cons, min_self]
    exact ih (fun y hy => h y (List.mem_cons_of_mem b hy))

theorem foldl_max_const {c : ℚ} {xs : List ℚ} (h : ∀ y ∈ xs, y = c) :
    xs.foldl max c = c := by
  induction xs with
  | nil => rfl
  | cons b t ih =>
    have hb : b = c := h b (List.mem_cons_self b t)
    subst hb
    simp only [List.foldl_cons, max_self]
    exact ih (fun y hy => h y (List.mem_cons_of_mem b hy))

theorem norm_of_constant {c : ℚ} {l : List ℚ} (h : ∀ y ∈ l, y = c) :
    norm l = l.map (fun _ => 0) := by
  unfold norm
  cases l with
  | nil => rfl
  | cons a t =>
    have ha : a = c := h a (List.mem_cons_self a t)
    subst ha
    have ht : ∀ y ∈ t, y = a := fun y hy => h y (List.mem_cons_of_mem a hy)
    have hmin : listMin (a :: t) = a := foldl_min_const ht
    have hmax : listMax (a :: t) = a := foldl_max_const ht
    rw [hmin, hmax, if_pos le_rfl]

theorem norm_mem_zero_of_constant {c : ℚ} {l : List ℚ} (h : ∀ y ∈ l, y = c)
    {x : ℚ} (hx : x ∈ norm l) : x = 0 := by
  rw [norm_of_constant h] at hx
  rcases List.mem_map.mp hx with ⟨v, _, hv⟩
  exact hv.symm

end TrainUnsupervised

/-- C2: in `train_models`, each raw detector score stream is independently
min-max normalized into [0,1] with the degenerate `max = min` population
mapped to the constant 0; `EnsembleScore` is the min-max normalization of
the mean of the two normalized streams, hence also in [0,1]; and when every
feature row is the same vector, every `IForestScore`, `OCSVMScore` and
`EnsembleScore` equals 0. -/
theorem C2_ensemble_scores_normalized (f g : TrainUnsupervised.FeatVec → ℚ)
    (users : List String) (rows : List TrainUnsupervised.FeatVec)
    (c : TrainUnsupervised.FeatVec) :
    (∀ s ∈ (TrainUnsupervised.train_models f g users rows).iforestScore,
      0 ≤ s ∧ s ≤ 1) ∧
    (∀ s ∈ (TrainUnsupervised.train_models f g users rows).ocsvmScore,
      0 ≤ s ∧ s ≤ 1) ∧
    (TrainUnsupervised.listMax (rows.map f) ≤ TrainUnsupervised.listMin (rows.map f) →
      (TrainUnsupervised.train_models f g users rows).iforestScore =
        (rows.map f).map (fun _ => 0)) ∧
    (TrainUnsupervised.train_models f g users rows).ensembleScore =
      TrainUnsupervised.norm
        ((((TrainUnsupervised.train_models f g users rows).iforestScore).zip
            ((TrainUnsupervised.train_models f g users rows).ocsvmScore)).map
          (fun p => (p.1 + p.2) / 2)) ∧
    (∀ s ∈ (TrainUnsupervised.train_models f g users rows).ensembleScore,
      0 ≤ s ∧ s ≤ 1) ∧
    ((∀ r ∈ rows, r = c) →
      (∀ s ∈ (TrainUnsupervised.train_models f g users rows).iforestScore, s = 0) ∧
      (∀ s ∈ (TrainUnsupervised.train_models f g users rows).ocsvmScore, s = 0) ∧
      (∀ s ∈ (TrainUnsupervised.train_models f g users rows).ensembleScore, s = 0)) := by
  refine ⟨fun s hs => TrainUnsupervised.norm_bounds hs,
         fun s hs => TrainUnsupervised.norm_bounds hs,
         ?_, rfl,
         fun s hs => TrainUnsupervised.norm_bounds hs, ?_⟩
  · intro h
    unfold TrainUnsupervised.train_models TrainUnsupervised.norm
    simp only [h, if_pos]
  · intro hconst
    have hf : ∀ y ∈ rows.map f, y = f c := by
      intro y hy
      rcases List.mem_map.mp hy with ⟨r, hr, rfl⟩
      rw [hconst r hr]
    have hg : ∀ y ∈ rows.map g, y = g c := by
      intro y hy
      rcases List.mem_map.mp hy with ⟨r, hr, rfl⟩
      rw [hconst r hr]
    refine ⟨fun s hs => TrainUnsupervised.norm_mem_zero_of_constant hf hs,
            fun s hs => TrainUnsupervised.norm_mem_zero_of_constant hg hs,
            fun s hs => ?_⟩
    have hmean : ∀ y ∈ ((TrainUnsupervised.norm (rows.map f)).zip
        (TrainUnsupervised.norm (rows.map g))).map (fun p => (p.1 + p.2) / 2),
        y = (0 : ℚ) := by
      intro y hy
      rcases List.mem_map.mp hy with ⟨p, hp, rfl⟩
      have h1 : p.1 = 0 :=
        TrainUnsupervised.norm_mem_zero_of_constant hf (List.of_mem_zip hp).1
      have h2 : p.2 = 0 :=
        TrainUnsupervised.norm_mem_zero_of_constant hg (List.of_mem_zip hp).2
      rw [h1, h2]; norm_num
    exact TrainUnsupervised.norm_mem_zero_of_constant hmean hs

/-- C2 witness: a concrete two-user population with identical feature
vectors, instantiating every hypothesis of the normalization theorem. -/
theorem C2_ensemble_scores_normalized_witness :
    (∀ s ∈ (TrainUnsupervised.train_models (fun v => v.sum) (fun v => v.length)
        ["a", "b"] [[1, 2], [1, 2]]).ensembleScore, 0 ≤ s ∧ s ≤ 1) ∧
    (∀ s ∈ (TrainUnsupervised.train_models (fun v => v.sum) (fun v => v.length)
        ["a", "b"] [[1, 2], [1, 2]]).ensembleScore, s = 0) := by
  refine ⟨(C2_ensemble_scores_normalized (fun v => v.sum) (fun v => v.length)
      ["a", "b"] [[1, 2], [1, 2]] [1, 2]).2.2.2.2.1, ?_⟩
  exact ((C2_ensemble_scores_normalized (fun v => v.sum) (fun v => v.length)
      ["a", "b"] [[1, 2], [1, 2]] [1, 2]).2.2.2.2.2 (by decide)).2.2

/-- C9: scoring is deterministic given fixed fitted model state — two runs
of `train_models` whose fitted per-point scorers agree pointwise and whose
population is the same produce identical score tables (in particular
identical `EnsembleScore` columns). -/
theorem C9_scoring_deterministic (f f2 g g2 : TrainUnsupervised.FeatVec → ℚ)
    (users users2 : List String) (rows rows2 : List TrainUnsupervised.FeatVec)
    (hf : ∀ r, f r = f2 r) (hg : ∀ r, g r = g2 r)
    (hu : users = users2) (hr : rows = rows2) :
    TrainUnsupervised.train_models f g users rows =
      TrainUnsupervised.train_models f2 g2 users2 rows2 := by
  have hfe : f = f2 := funext hf
  have hge : g = g2 := funext hg
  rw [hfe, hge, hu, hr]

/-- C9 witness: re-scoring a concrete three-user population with the same
fitted scorers reproduces the same table. -/
theorem C9_scoring_deterministic_witness :
    TrainUnsupervised.train_models (fun v => v.sum) (fun v => v.headD 0)
      ["a", "b", "c"] [[10, 2], [10, 2], [50000, 900]] =
    TrainUnsupervised.train_models (fun v => v.sum) (fun v => v.headD 0)
      ["a", "b", "c"] [[10, 2], [10, 2], [50000, 900]] :=
  C9_scoring_deterministic (fun v => v.sum) (fun v => v.sum)
    (fun v => v.headD 0) (fun v => v.headD 0)
    ["a", "b", "c"] ["a", "b", "c"]
    [[10, 2], [10, 2], [50000, 900]] [[10, 2], [10, 2], [50000, 900]]
    (fun _ => rfl) (fun _ => rfl) rfl rfl

namespace Features

theorem mkRow_user (ud : List UserStat) (pr : List PairRow)
    (r : String × ℚ) : (mkRow ud pr r).user = r.1 := rfl

theorem map_user_mkRow (ud : List UserStat) (pr : List PairRow)
    (base : List (String × ℚ)) :
    ((base.map (mkRow ud pr)).map FeatRow.user) = base.map Prod.fst := by
  rw [List.map_map]
  rfl

theorem baseOf_users (ud ue : List UserStat) (pr : List PairRow) :
    (baseOf ud ue pr).map Prod.fst =
      (if ue ≠ [] then ue.map Prod.fst
       else if ud ≠ [] then ud.map Prod.fst
       else (pr.map (fun p => p.1)).dedup) := by
  unfold baseOf
  by_cases h1 : ue = []
  · by_cases h2 : ud = []
    · simp [h1, h2, Function.comp_def]
    · simp [h1, h2]
  · simp [h1]

theorem baseOf_snd_zero (ud ue : List UserStat) (pr : List PairRow)
    (h1 : ue = []) : ∀ b ∈ baseOf ud ue pr, b.2 = 0 := by
  intro b hb
  unfold baseOf at hb
  rw [h1] at hb
  simp only [ne_eq, not_true_eq_false, if_false] at hb
  by_cases h2 : ud = []
  · simp only [h2, ne_eq, not_true_eq_false, if_false] at hb
    rcases List.mem_map.mp hb with ⟨u, _, rfl⟩
    rfl
  · simp only [h2, ne_eq, not_false_eq_true, if_true] at hb
    rcases List.mem_map.mp hb with ⟨u, _, rfl⟩
    rfl

end Features

/-- C1 counterexample: with `TopUsers_ByEvents = [("a", 5)]` and
`TopUsers_ByDistinctComputers = [("b", 3)]`, user `b` appears in a source
table but `build_user_features` outputs only a row for `a` — the left
merges onto the events-derived base drop `b`, so the claimed union
population is false. -/
theorem C1_union_population_counterexample :
    "b" ∈ ([("b", (3 : ℚ))] : List Features.UserStat).map Prod.fst ∧
    (Features.build_user_features [("b", 3)] [("a", 5)] []).map
      Features.FeatRow.user = ["a"] ∧
    ∀ r ∈ Features.build_user_features [("b", 3)] [("a", 5)] [],
      r.user ≠ "b" := by
  refine ⟨by decide, by decide, ?_⟩
  decide

/-- C1 amended: the output population of `build_user_features` is the first
non-empty source table in the order events-by-user, distinct-hosts-by-user,
pair-table users (not the union); each base user appears exactly once when
the source tables have unique users; a field whose source table is missing,
or whose user is absent from that source, defaults to 0; and when all three
tables are empty the output is empty without error. -/
theorem C1_base_population (ud ue : List Features.UserStat)
    (pr : List Features.PairRow)
    (hue : (ue.map Prod.fst).Nodup) (hud : (ud.map Prod.fst).Nodup) :
    ((Features.build_user_features ud ue pr).map Features.FeatRow.user =
      (if ue ≠ [] then ue.map Prod.fst
       else if ud ≠ [] then ud.map Prod.fst
       else (pr.map (fun p => p.1)).dedup)) ∧
    (if ue ≠ [] then ue.map Prod.fst
     else if ud ≠ [] then ud.map Prod.fst
     else (pr.map (fun p => p.1)).dedup).Nodup ∧
    (ud = [] ∧ ue = [] ∧ pr = [] → Features.build_user_features ud ue pr = []) ∧
    (∀ r ∈ Features.build_user_features ud ue pr,
      (ue = [] → r.totalEvents = 0) ∧
      (List.lookup r.user ud = none → r.distinctComputers = 0) ∧
      (pr.filter (fun p => p.1 == r.user) = [] →
        r.topPairEvents = 0 ∧ r.numPairs = 0)) := by
  refine ⟨?_, ?_, fun h => by simp [Features.build_user_features, h.1, h.2.1, h.2.2], ?_⟩
  · by_cases hall : ud = [] ∧ ue = [] ∧ pr = []
    · obtain ⟨h1, h2, h3⟩ := hall
      subst h1; subst h2; subst h3
      simp [Features.build_user_features]
    · unfold Features.build_user_features
      rw [if_neg hall, Features.map_user_mkRow, Features.baseOf_users]
  · by_cases h1 : ue = []
    · by_cases h2 : ud = []
      · simp [h1, h2, List.nodup_dedup]
      · simpa [h1, h2] using hud
    · simpa [h1] using hue
  · intro r hr
    have hr' : r ∈ (Features.baseOf ud ue pr).map (Features.mkRow ud pr) := by
      by_cases hall : ud = [] ∧ ue = [] ∧ pr = []
      · simp [Features.build_user_features, hall.1, hall.2.1, hall.2.2] at hr
      · unfold Features.build_user_features at hr
        rwa [if_neg hall] at hr
    rcases List.mem_map.mp hr' with ⟨b, hb, rfl⟩
    refine ⟨fun hueE => ?_, fun hl => ?_, fun hf => ?_⟩
    · have := Features.baseOf_snd_zero ud ue pr hueE b hb
      simpa [Features.mkRow] using this
    · simp only [Features.mkRow_user] at hl
      by_cases hudE : ud = []
      · simp [Features.mkRow, hudE]
      · simp [Features.mkRow, hudE, hl]
    · simp only [Features.mkRow_user] at hf
      by_cases hprE : pr = []
      · simp [Features.mkRow, hprE]
      · simp [Features.mkRow, hprE, Features.topPairEventsOf,
          Features.numPairsOf, hf]

/-- C1 amended witness: a concrete run where the events table provides the
base, the distinct-hosts value of its user is merged and the pair features
default to 0. -/
theorem C1_base_population_witness :
    ((Features.build_user_features [("b", 3)] [("a", 5)] []).map
      Features.FeatRow.user = ["a"]) ∧
    (∀ r ∈ Features.build_user_features [("b", 3)] [("a", 5)] [],
      (List.lookup r.user [("b", (3 : ℚ))] = none →
        r.distinctComputers = 0)) := by
  have h := C1_base_population [("b", 3)] [("a", 5)] [] (by decide) (by decide)
  refine ⟨by simpa using h.1, fun r hr hl => ((h.2.2.2 r hr).2.1 hl)⟩

/-- C10: a failed read of any one source file behaves exactly as the empty
table — `_safe_read_csv` converts the failure into an empty `DataFrame`,
which `build_user_features` then treats through its missing-source
defaulting branches, never through an exception (the embedding is total). -/
theorem C10_failed_reads_default_empty (e : String)
    (rd re : Except String (List Features.UserStat))
    (rp : Except String (List Features.PairRow)) :
    Features.safe_read_csv (Except.error e :
      Except String (List Features.UserStat)) = [] ∧
    Features.build_user_features_from_reads (.error e) re rp =
      Features.build_user_features_from_reads (.ok []) re rp ∧
    Features.build_user_features_from_reads rd (.error e) rp =
      Features.build_user_features_from_reads rd (.ok []) rp ∧
    Features.build_user_features_from_reads rd re (.error e) =
      Features.build_user_features_from_reads rd re (.ok []) ∧
    Features.build_user_features_from_reads rd re rp =
      Features.build_user_features (Features.safe_read_csv rd)
        (Features.safe_read_csv re) (Features.safe_read_csv rp) :=
  ⟨rfl, rfl, rfl, rfl, rfl⟩

namespace TrainSupervised

theorem nodup_binary_cases (l : List ℤ) (hn : l.Nodup)
    (hb : ∀ v ∈ l, v = 0 ∨ v = 1) :
    l = [] ∨ l = [0] ∨ l = [1] ∨ l = [0, 1] ∨ l = [1, 0] := by
  match l with
  | [] => exact Or.inl rfl
  | [a] =>
    rcases hb a (by simp) with h | h
    · exact Or.inr (Or.inl (by rw [h]))
    · exact Or.inr (Or.inr (Or.inl (by rw [h])))
  | a :: b :: t =>
    have ha := hb a (by simp)
    have hbb := hb b (by simp)
    have hab : a ≠ b := by
      intro h
      rw [List.nodup_cons] at hn
      exact hn.1 (h ▸ List.mem_cons_self b t)
    have ht : t = [] := by
      cases t with
      | nil => rfl
      | cons c t2 =>
        have hc := hb c (by simp)
        have hac : a ≠ c := by
          intro h
          rw [List.nodup_cons] at hn
          exact hn.1 (by rw [h]; exact List.mem_cons_of_mem b (List.mem_cons_self c t2))
        have hbc : b ≠ c := by
          intro h
          rw [List.nodup_cons, List.nodup_cons] at hn
          exact hn.2.1 (by rw [h]; exact List.mem_cons_self c t2)
        rcases ha with h1 | h1 <;> rcases hbb with h2 | h2 <;>
          rcases hc with h3 | h3 <;> omega
    subst ht
    rcases ha with h1 | h1 <;> rcases hbb with h2 | h2
    · exact absurd (h1.trans h2.symm) hab
    · exact Or.inr (Or.inr (Or.inr (Or.inl (by rw [h1, h2]))))
    · exact Or.inr (Or.inr (Or.inr (Or.inr (by rw [h1, h2]))))
    · exact absurd (h1.trans h2.symm) hab

theorem canStratify_iff (y : List ℤ) (hb : ∀ v ∈ y, v = 0 ∨ v = 1) :
    canStratify y = true ↔ 2 ≤ y.count 0 ∧ 2 ≤ y.count 1 := by
  have hn : y.dedup.Nodup := y.nodup_dedup
  have hsub : ∀ v ∈ y.dedup, v = 0 ∨ v = 1 :=
    fun v hv => hb v (List.mem_dedup.mp hv)
  rcases nodup_binary_cases y.dedup hn hsub with h | h | h | h | h
  · have hy : y = [] := (List.dedup_eq_nil y).mp h
    subst hy
    simp [canStratify]
  · have h1 : (1 : ℤ) ∉ y := by
      intro hmem
      have := List.mem_dedup.mpr hmem
      rw [h] at this
      simp at this
    simp [canStratify, h, List.count_eq_zero_of_not_mem h1]
  · have h0 : (0 : ℤ) ∉ y := by
      intro hmem
      have := List.mem_dedup.mpr hmem
      rw [h] at this
      simp at this
    simp [canStratify, h, List.count_eq_zero_of_not_mem h0]
  · simp [canStratify, h, le_min_iff]
  · simp [canStratify, h, le_min_iff, and_comm]

theorem supervised_main_ok (P : SupParams) (feats : List Features.FeatRow)
    (lr : Except String LabelsCsv) (joined : List (Features.FeatRow × ℤ))
    (hload : supervised_load feats lr = .ok joined) :
    supervised_main P feats lr =
      (if 3 ≤ (joinedY joined).length ∧ (ytrOf P joined).dedup.length < 2 then
        .error "IndexError: index 1 is out of bounds for axis 1 with size 1"
      else if (5 ≤ (joinedY joined).length ∧ 1 < (joinedY joined).dedup.length) ∧
          minClassCount (joinedY joined) < 5 then
        .error "ValueError: n_splits=5 cannot be greater than the number of members in each class."
      else if (ytrOf P joined).dedup.length < 2 then
        .error "IndexError: index 1 is out of bounds for axis 1 with size 1"
      else
        .ok { plan := splitPlan (joinedY joined)
              cvRan := 5 ≤ (joinedY joined).length ∧
                1 < (joinedY joined).dedup.length
              scalerFinalFit :=
                if 5 ≤ (joinedY joined).length ∧
                    1 < (joinedY joined).dedup.length then joinedX joined
                else (splitParts P joined).1
              users := feats.map (fun f => f.user)
              probs := feats.map (fun f =>
                P.proba ((splitParts P joined).1.map
                    (scalerTransform (splitParts P joined).1))
                  (ytrOf P joined)
                  (scalerTransform
                    (if 5 ≤ (joinedY joined).length ∧
                        1 < (joinedY joined).dedup.length then joinedX joined
                     else (splitParts P joined).1) (featVec f))) }) := by
  unfold supervised_main
  rw [hload]

end TrainSupervised

/-- C4: the split policy of `main` — fewer than 3 labeled examples means no
train/test split (the plan fits on all labeled data, and the final scaler is
then fitted on the full labeled matrix); otherwise a held-out split with
test fraction 0.3 from 4 labeled examples and 0.5 below, stratified exactly
when both classes have at least 2 examples, with the warning flag set
exactly when stratification is skipped. -/
theorem C4_split_policy (y : List ℤ) (P : TrainSupervised.SupParams)
    (feats : List Features.FeatRow)
    (lr : Except String TrainSupervised.LabelsCsv) :
    (y.length < 3 → TrainSupervised.splitPlan y = .fitAll) ∧
    (3 ≤ y.length →
      TrainSupervised.splitPlan y =
        .holdOut (TrainSupervised.testSize y) (TrainSupervised.canStratify y)
          (!TrainSupervised.canStratify y) ∧
      TrainSupervised.testSize y = (if 4 ≤ y.length then 3 / 10 else 1 / 2) ∧
      ((∀ v ∈ y, v = 0 ∨ v = 1) →
        (TrainSupervised.canStratify y = true ↔
          2 ≤ y.count 0 ∧ 2 ≤ y.count 1))) ∧
    (∀ joined, TrainSupervised.supervised_load feats lr = .ok joined →
      (joined.map Prod.snd).length < 3 →
      1 < (joined.map Prod.snd).dedup.length →
      ∃ res, TrainSupervised.supervised_main P feats lr = .ok res ∧
        res.plan = .fitAll ∧
        res.scalerFinalFit = joined.map (fun q => TrainSupervised.featVec q.1)) := by
  refine ⟨fun h => by simp [TrainSupervised.splitPlan, h], fun h3 => ?_, ?_⟩
  · have hlt : ¬ y.length < 3 := by omega
    exact ⟨by simp [TrainSupervised.splitPlan, hlt], rfl,
      fun hb => TrainSupervised.canStratify_iff y hb⟩
  · intro joined hload hlen hcls
    have hlen2 : joined.length < 3 := by simpa using hlen
    have hy : TrainSupervised.joinedY joined = joined.map Prod.snd := rfl
    have hytr : TrainSupervised.ytrOf P joined = joined.map Prod.snd := by
      unfold TrainSupervised.ytrOf TrainSupervised.splitParts
      simp [TrainSupervised.splitPlan, TrainSupervised.joinedY, hlen2]
    have hmain := TrainSupervised.supervised_main_ok P feats lr joined hload
    rw [if_neg (by rw [hy, hytr]; simp only [List.length_map]; omega),
      if_neg (by rw [hy]; simp only [List.length_map]; intro hcc; omega),
      if_neg (by rw [hytr]; omega)] at hmain
    refine ⟨_, hmain, ?_, ?_⟩
    · show TrainSupervised.splitPlan (TrainSupervised.joinedY joined) = _
      rw [hy]
      simp [TrainSupervised.splitPlan, hlen2]
    · show (if 5 ≤ (TrainSupervised.joinedY joined).length ∧
          1 < (TrainSupervised.joinedY joined).dedup.length then
          TrainSupervised.joinedX joined
        else (TrainSupervised.splitParts P joined).1) = _
      rw [if_neg (by rw [hy]; simp only [List.length_map]; intro hcc; omega)]
      unfold TrainSupervised.splitParts
      simp [TrainSupervised.splitPlan, TrainSupervised.joinedY, hlen2]
      try rfl

/-- C4 witness: five binary labels (three 1s, two 0s) give a stratified
70/30 hold-out split, and a two-label run below the threshold takes the
no-split branch whose final scaler is fitted on the full labeled matrix. -/
theorem C4_split_policy_witness :
    (TrainSupervised.splitPlan [0, 1] = .fitAll) ∧
    (TrainSupervised.splitPlan [1, 1, 1, 0, 0] =
      .holdOut (TrainSupervised.testSize [1, 1, 1, 0, 0])
        (TrainSupervised.canStratify [1, 1, 1, 0, 0])
        (!TrainSupervised.canStratify [1, 1, 1, 0, 0])) ∧
    (TrainSupervised.canStratify [1, 1, 1, 0, 0] = true ↔
      2 ≤ ([1, 1, 1, 0, 0] : List ℤ).count 0 ∧
      2 ≤ ([1, 1, 1, 0, 0] : List ℤ).count 1) := by
  have h1 := C4_split_policy [0, 1]
    { split := fun X y _ _ => (X, [], y, []), proba := fun _ _ _ => 0 } [] (.error "x")
  have h2 := C4_split_policy [1, 1, 1, 0, 0]
    { split := fun X y _ _ => (X, [], y, []), proba := fun _ _ _ => 0 } [] (.error "x")
  exact ⟨h1.1 (by decide), (h2.2.1 (by decide)).1,
    (h2.2.1 (by decide)).2.2 (by decide)⟩

namespace EnrichTimeGeo

theorem insertByTs_perm (a : LoginEvent) (l : List LoginEvent) :
    (insertByTs a l).Perm (a :: l) := by
  induction l with
  | nil => exact List.Perm.refl _
  | cons b t ih =>
    unfold insertByTs
    by_cases h : a.ts ≤ b.ts
    · rw [if_pos h]
    · rw [if_neg h]
      exact (ih.cons b).trans (List.Perm.swap a b t)

theorem sortByTs_perm (l : List LoginEvent) : (sortByTs l).Perm l := by
  induction l with
  | nil => exact List.Perm.refl _
  | cons a t ih =>
    unfold sortByTs List.foldr
    exact (insertByTs_perm a (sortByTs t)).trans (ih.cons a)

theorem flatMap_congr {α β : Type} {l : List α} {f g : α → List β}
    (h : ∀ a ∈ l, f a = g a) : l.flatMap f = l.flatMap g := by
  induction l with
  | nil => rfl
  | cons a t ih =>
    rw [List.flatMap_cons, List.flatMap_cons, h a (List.mem_cons_self a t),
      ih (fun b hb => h b (List.mem_cons_of_mem a hb))]

theorem flatMap_perm {α β : Type} {l : List α} {f g : α → List β}
    (h : ∀ a ∈ l, (f a).Perm (g a)) : (l.flatMap f).Perm (l.flatMap g) := by
  induction l with
  | nil => exact List.Perm.refl _
  | cons a t ih =>
    rw [List.flatMap_cons, List.flatMap_cons]
    exact (h a (List.mem_cons_self a t)).append
      (ih (fun b hb => h b (List.mem_cons_of_mem a hb)))

theorem filter_group_perm :
    ∀ (ks : List String), ks.Nodup → ∀ (l : List LoginEvent),
    (∀ e ∈ l, e.user ∈ ks) →
    (ks.flatMap (fun u => l.filter (fun e => e.user == u))).Perm l := by
  intro ks
  induction ks with
  | nil =>
    intro _ l hcov
    cases l with
    | nil => exact List.Perm.refl _
    | cons e t => cases hcov e (List.mem_cons_self e t)
  | cons u ks ih =>
    intro hnd l hcov
    rw [List.flatMap_cons]
    rw [List.nodup_cons] at hnd
    have hstep : (ks.flatMap (fun v => l.filter (fun e => e.user == v))).Perm
        (l.filter (fun e => !(e.user == u))) := by
      have heq : ks.flatMap (fun v => l.filter (fun e => e.user == v)) =
          ks.flatMap (fun v =>
            (l.filter (fun e => !(e.user == u))).filter
              (fun e => e.user == v)) := by
        refine flatMap_congr (fun v hv => ?_)
        rw [List.filter_filter]
        refine (List.filter_congr (fun e _ => ?_)).symm
        by_cases he : e.user == v
        · have hv2 : e.user = v := by simpa using he
          have hvu : ¬ (e.user == u) = true := by
            simp only [beq_iff_eq, hv2]
            intro hc
            exact hnd.1 (hc ▸ hv)
          simp [he, hvu]
        · simp [he]
      rw [heq]
      refine ih hnd.2 _ (fun e he => ?_)
      rcases List.mem_filter.mp he with ⟨hel, hne⟩
      have := hcov e hel
      rcases List.mem_cons.mp this with h | h
      · exfalso
        simp [h] at hne
      · exact h
    exact ((List.Perm.append_left _ hstep).trans
      (List.filter_append_perm (fun e => e.user == u) l))

theorem length_chainSpeeds (d : DistFn) (l : List LoginEvent) :
    (chainSpeeds d l).length = l.length := by
  unfold chainSpeeds
  rw [List.length_map, List.length_zip]
  simp

theorem processUser_speeds_length (d : DistFn) (hl : Bool)
    (evs : List LoginEvent) :
    (if hl then chainSpeeds d (sortByTs evs)
     else (sortByTs evs).map (fun _ => none)).length =
      (sortByTs evs).length := by
  cases hl
  · simp
  · simp [length_chainSpeeds]

theorem processUser_map_eventOf (d : DistFn) (hl : Bool)
    (evs : List LoginEvent) :
    (processUser d hl evs).map eventOf = sortByTs evs := by
  unfold processUser
  rw [List.map_map]
  have h : ((sortByTs evs).zip
      (if hl then chainSpeeds d (sortByTs evs)
       else (sortByTs evs).map (fun _ => none))).map Prod.fst = sortByTs evs :=
    List.map_fst_zip _ _ (by rw [processUser_speeds_length])
  exact h

theorem processUser_perm (d : DistFn) (hl : Bool) (evs : List LoginEvent) :
    ((processUser d hl evs).map eventOf).Perm evs := by
  rw [processUser_map_eventOf]
  exact sortByTs_perm evs

theorem enrichRows_perm (d : DistFn) (hl : Bool) (l : List LoginEvent) :
    ((((l.map (fun e => e.user)).dedup).flatMap
      (fun u => processUser d hl (l.filter (fun e => e.user == u)))).map
        eventOf).Perm l := by
  rw [List.map_flatMap]
  have h1 : ((l.map (fun e => e.user)).dedup).flatMap
      (fun u => (processUser d hl (l.filter (fun e => e.user == u))).map
        eventOf) =
      ((l.map (fun e => e.user)).dedup).flatMap
      (fun u => sortByTs (l.filter (fun e => e.user == u))) :=
    flatMap_congr (fun u _ => processUser_map_eventOf d hl _)
  rw [h1]
  have h2 := flatMap_perm (l := (l.map (fun e => e.user)).dedup)
    (f := fun u => sortByTs (l.filter (fun e => e.user == u)))
    (g := fun u => l.filter (fun e => e.user == u))
    (fun u _ => sortByTs_perm _)
  exact h2.trans (filter_group_perm _ (List.nodup_dedup _) l
    (fun e he => List.mem_dedup.mpr (List.mem_map_of_mem _ he)))

theorem processUser_geoJump (d : DistFn) (hl : Bool) (evs : List LoginEvent) :
    ∀ row ∈ processUser d hl evs, row.geoJump = geoJumpOf row.speed := by
  intro row hrow
  unfold processUser at hrow
  rcases List.mem_map.mp hrow with ⟨p, _, rfl⟩
  rfl

theorem processUser_speed_none (d : DistFn) (evs : List LoginEvent) :
    ∀ row ∈ processUser d false evs, row.speed = none := by
  intro row hrow
  unfold processUser at hrow
  simp only [Bool.false_eq_true, if_false] at hrow
  rcases List.mem_map.mp hrow with ⟨p, hp, rfl⟩
  have h2 := (List.of_mem_zip hp).2
  rcases List.mem_map.mp h2 with ⟨_, _, h3⟩
  exact h3.symm

theorem processUser_map_speed (d : DistFn) (hl : Bool)
    (evs : List LoginEvent) :
    (processUser d hl evs).map (fun r => r.speed) =
      (if hl then chainSpeeds d (sortByTs evs)
       else (sortByTs evs).map (fun _ => none)) := by
  unfold processUser
  rw [List.map_map]
  exact List.map_snd_zip _ _ (by rw [processUser_speeds_length])

theorem processUser_map_geoJump (d : DistFn) (hl : Bool)
    (evs : List LoginEvent) :
    (processUser d hl evs).map (fun r => r.geoJump) =
      ((if hl then chainSpeeds d (sortByTs evs)
        else (sortByTs evs).map (fun _ => none)).map geoJumpOf) := by
  unfold processUser
  rw [List.map_map]
  conv_rhs => rw [← List.map_snd_zip (sortByTs evs)
    (if hl then chainSpeeds d (sortByTs evs)
     else (sortByTs evs).map (fun _ => none))
    (by rw [processUser_speeds_length]), List.map_map]
  rfl

theorem stripGeo_speed (r : OutRow) : (stripGeo r).speed = r.speed := rfl

theorem stripGeo_geoJump (r : OutRow) : (stripGeo r).geoJump = r.geoJump := rfl

end EnrichTimeGeo

/-- C7 counterexample: on an input with `Lat`/`Lon` but no `Country`
column, the written output drops the `Lat`/`Lon` values (the selection list
is chosen by the presence of `Country` alone), so the own fields of the
input
are not preserved as claimed; moreover `Country` without `Lat`/`Lon` makes
the final column selection raise `KeyError` instead of succeeding. -/
theorem C7_fields_unchanged_counterexample :
    ((EnrichTimeGeo.enrich_time_geo (fun _ _ => 0)
        { hasCountry := false, hasLatLon := true,
          rows := [{ user := "u", ts := 0, country := none,
                     lat := some 10, lon := some 20 }] }).map
      (fun o => o.rows.map (fun r => r.lat))) = .ok [none] ∧
    (([{ user := "u", ts := 0, country := none, lat := some 10,
         lon := some 20 }] : List EnrichTimeGeo.LoginEvent).map
      (fun e => e.lat)) = [some 10] ∧
    ([none] : List (Option ℚ)) ≠ [some 10] ∧
    (EnrichTimeGeo.enrich_time_geo (fun _ _ => 0)
        { hasCountry := true, hasLatLon := false,
          rows := [{ user := "u", ts := 0, country := some "US",
                     lat := none, lon := none }] }).toOption = none := by
  exact ⟨rfl, rfl, by decide, rfl⟩

/-- C7 amended: enrichment succeeds exactly when the input does not have a
`Country` column without `Lat`/`Lon`; on success the output rows are a
permutation of the input events, with every input field preserved when
`Country` is present and with `Country`/`Lat`/`Lon` dropped otherwise;
the `GeoJumpFlag` of each row is the flag of its `SpeedKmh`; an event whose
`shift(1)` predecessor is missing or not geolocated, or which is not
geolocated itself, gets a null speed (and the null flag is false); and
without `Lat`/`Lon` columns every row has a null speed and a false flag. -/
theorem C7_output_shape (d : EnrichTimeGeo.DistFn)
    (t : EnrichTimeGeo.EventsTable) :
    ((∃ out, EnrichTimeGeo.enrich_time_geo d t = .ok out) ↔
      ¬ (t.hasCountry = true ∧ t.hasLatLon = false)) ∧
    (∀ out, EnrichTimeGeo.enrich_time_geo d t = .ok out →
      ((out.rows.map EnrichTimeGeo.eventOf).Perm
        (if t.hasCountry then t.rows
         else t.rows.map EnrichTimeGeo.stripGeoEvent)) ∧
      (∀ row ∈ out.rows, row.geoJump = EnrichTimeGeo.geoJumpOf row.speed) ∧
      (t.hasLatLon = false →
        ∀ row ∈ out.rows, row.speed = none ∧ row.geoJump = false)) ∧
    (∀ (p : Option EnrichTimeGeo.LoginEvent) (e : EnrichTimeGeo.LoginEvent),
      (p = none ∨
        (∃ pe, p = some pe ∧ (pe.lat = none ∨ pe.lon = none)) ∨
        e.lat = none ∨ e.lon = none) →
      EnrichTimeGeo.speedOf d p e = none) ∧
    EnrichTimeGeo.geoJumpOf none = false := by
  refine ⟨?_, ?_, ?_, rfl⟩
  · constructor
    · rintro ⟨out, hout⟩ ⟨hc, hll⟩
      unfold EnrichTimeGeo.enrich_time_geo at hout
      rw [if_pos hc, if_neg (by simp [hll])] at hout
      cases hout
    · intro hcl
      unfold EnrichTimeGeo.enrich_time_geo
      by_cases hc : t.hasCountry = true
      · have hll : t.hasLatLon = true := by
          by_contra hll
          exact hcl ⟨hc, by simpa using hll⟩
        rw [if_pos hc, if_pos hll]
        exact ⟨_, rfl⟩
      · rw [if_neg hc]
        exact ⟨_, rfl⟩
  · intro out hout
    unfold EnrichTimeGeo.enrich_time_geo at hout
    by_cases hc : t.hasCountry = true
    · by_cases hll : t.hasLatLon = true
      · rw [if_pos hc, if_pos hll] at hout
        cases hout
        refine ⟨?_, ?_, ?_⟩
        · rw [if_pos hc]
          exact EnrichTimeGeo.enrichRows_perm d t.hasLatLon t.rows
        · intro row hrow
          rcases List.mem_flatMap.mp hrow with ⟨u, _, hrow2⟩
          exact EnrichTimeGeo.processUser_geoJump d t.hasLatLon _ row hrow2
        · intro hllf
          rw [hll] at hllf
          cases hllf
      · rw [if_pos hc, if_neg hll] at hout
        cases hout
    · rw [if_neg hc] at hout
      cases hout
      have hllf : t.hasLatLon = false ∨ t.hasLatLon = true :=
        Or.symm (Bool.eq_false_or_eq_true t.hasLatLon)
      refine ⟨?_, ?_, ?_⟩
      · rw [if_neg hc]
        have hmm : ((((t.rows.map (fun e => e.user)).dedup).flatMap
            (fun u => EnrichTimeGeo.processUser d t.hasLatLon
              (t.rows.filter (fun e => e.user == u)))).map
              EnrichTimeGeo.stripGeo).map EnrichTimeGeo.eventOf =
            ((((t.rows.map (fun e => e.user)).dedup).flatMap
            (fun u => EnrichTimeGeo.processUser d t.hasLatLon
              (t.rows.filter (fun e => e.user == u)))).map
              EnrichTimeGeo.eventOf).map EnrichTimeGeo.stripGeoEvent := by
          rw [List.map_map, List.map_map]
          rfl
        rw [hmm]
        exact (EnrichTimeGeo.enrichRows_perm d t.hasLatLon t.rows).map
          EnrichTimeGeo.stripGeoEvent
      · intro row hrow
        rcases List.mem_map.mp hrow with ⟨row0, hrow0, rfl⟩
        rcases List.mem_flatMap.mp hrow0 with ⟨u, _, hrow2⟩
        rw [EnrichTimeGeo.stripGeo_geoJump, EnrichTimeGeo.stripGeo_speed]
        exact EnrichTimeGeo.processUser_geoJump d t.hasLatLon _ row0 hrow2
      · intro hllf row hrow
        rcases List.mem_map.mp hrow with ⟨row0, hrow0, rfl⟩
        rcases List.mem_flatMap.mp hrow0 with ⟨u, _, hrow2⟩
        rw [hllf] at hrow2
        have hs := EnrichTimeGeo.processUser_speed_none d _ row0 hrow2
        have hj := EnrichTimeGeo.processUser_geoJump d false _ row0 hrow2
        rw [EnrichTimeGeo.stripGeo_geoJump, EnrichTimeGeo.stripGeo_speed]
        exact ⟨hs, by rw [hj, hs]; rfl⟩
  · intro p e hcond
    rcases p with _ | pe
    · rfl
    · rcases hla : pe.lat with _ | la <;> rcases hlo : pe.lon with _ | lo <;>
        rcases hea : e.lat with _ | ea <;> rcases heo : e.lon with _ | eo <;>
        simp_all [EnrichTimeGeo.speedOf]

/-- C7 amended witness: a two-event no-geo-column table enriches
successfully with uniformly null speeds and false flags, and a concrete
non-geolocated pair gets a null speed. -/
theorem C7_output_shape_witness :
    (∃ out, EnrichTimeGeo.enrich_time_geo (fun _ _ => 0)
      { hasCountry := false, hasLatLon := false,
        rows := [{ user := "u", ts := 0, country := none, lat := none,
                   lon := none },
                 { user := "u", ts := 1, country := none, lat := none,
                   lon := none }] } = .ok out) ∧
    EnrichTimeGeo.speedOf (fun _ _ => 0) none
      { user := "u", ts := 1, country := none, lat := none, lon := none } =
      none := by
  have h := C7_output_shape (fun _ _ => 0)
    { hasCountry := false, hasLatLon := false,
      rows := [{ user := "u", ts := 0, country := none, lat := none,
                 lon := none },
               { user := "u", ts := 1, country := none, lat := none,
                 lon := none }] }
  exact ⟨h.1.mpr (by decide), h.2.2.1 none _ (Or.inl rfl)⟩

/-- C5: for a geolocated consecutive pair, `SpeedKmh` is the distance over
the elapsed hours (infinite when the elapsed time is not positive) and
`GeoJumpFlag` holds exactly above 900 km/h; the haversine distance of a
point to itself is 0; and concretely, two events of one user 1 hour apart
whose distance is 2000 km get `SpeedKmh = 2000` and a true flag, while a
10 km distance leaves the flag false. -/
theorem C5_speed_and_flag (d : EnrichTimeGeo.DistFn)
    (pe e : EnrichTimeGeo.LoginEvent) (la1 lo1 la2 lo2 : ℚ) :
    (∀ x y : ℝ, EnrichTimeGeo.haversine_km x y x y = 0) ∧
    (pe.lat = some la1 → pe.lon = some lo1 → e.lat = some la2 →
      e.lon = some lo2 →
      ((e.ts - pe.ts ≤ 0 →
        EnrichTimeGeo.speedOf d (some pe) e = some ⊤) ∧
       (0 < e.ts - pe.ts →
        EnrichTimeGeo.speedOf d (some pe) e =
          some ((d (la1, lo1) (la2, lo2) / (e.ts - pe.ts) : ℚ) :
            WithTop ℚ)))) ∧
    (∀ s : WithTop ℚ,
      EnrichTimeGeo.geoJumpOf (some s) = true ↔ 900 < s) ∧
    ((EnrichTimeGeo.processUser (fun _ _ => 2000) true
      [{ user := "u", ts := 0, country := none, lat := some 0,
         lon := some 0 },
       { user := "u", ts := 1, country := none, lat := some 1,
         lon := some 1 }]).map (fun r => r.speed) =
      [none, some ((2000 : ℚ) : WithTop ℚ)]) ∧
    ((EnrichTimeGeo.processUser (fun _ _ => 2000) true
      [{ user := "u", ts := 0, country := none, lat := some 0,
         lon := some 0 },
       { user := "u", ts := 1, country := none, lat := some 1,
         lon := some 1 }]).map (fun r => r.geoJump) = [false, true]) ∧
    ((EnrichTimeGeo.processUser (fun _ _ => 10) true
      [{ user := "u", ts := 0, country := none, lat := some 0,
         lon := some 0 },
       { user := "u", ts := 1, country := none, lat := some 1,
         lon := some 1 }]).map (fun r => r.geoJump) = [false, false]) := by
  refine ⟨?_, ?_, ?_, ?_, ?_, ?_⟩
  · intro x y
    unfold EnrichTimeGeo.haversine_km
    norm_num [Real.sqrt_zero, Real.arcsin_zero]
  · intro h1 h2 h3 h4
    obtain ⟨pu, pts, pc, plat, plon⟩ := pe
    obtain ⟨eu, ets, ec, elat, elon⟩ := e
    simp only at h1 h2 h3 h4
    subst h1; subst h2; subst h3; subst h4
    constructor
    · intro hdt
      have hdt2 : ets - pts ≤ 0 := hdt
      show (some (if 0 < ets - pts then
          ((d (la1, lo1) (la2, lo2) / (ets - pts) : ℚ) : WithTop ℚ) else ⊤) :
        Option (WithTop ℚ)) = some ⊤
      rw [if_neg (not_lt.mpr hdt2)]
    · intro hdt
      have hdt2 : (0 : ℚ) < ets - pts := hdt
      show (some (if 0 < ets - pts then
          ((d (la1, lo1) (la2, lo2) / (ets - pts) : ℚ) : WithTop ℚ) else ⊤) :
        Option (WithTop ℚ)) =
        some ((d (la1, lo1) (la2, lo2) / (ets - pts) : ℚ) : WithTop ℚ)
      rw [if_pos hdt2]
  · intro s
    unfold EnrichTimeGeo.geoJumpOf
    exact decide_eq_true_iff
  · rw [EnrichTimeGeo.processUser_map_speed]
    norm_num [EnrichTimeGeo.sortByTs, EnrichTimeGeo.insertByTs,
      EnrichTimeGeo.chainSpeeds, EnrichTimeGeo.speedOf, List.zip_cons_cons]
  · rw [EnrichTimeGeo.processUser_map_geoJump]
    norm_num [EnrichTimeGeo.sortByTs, EnrichTimeGeo.insertByTs,
      EnrichTimeGeo.chainSpeeds, EnrichTimeGeo.speedOf, List.zip_cons_cons,
      EnrichTimeGeo.geoJumpOf, decide_eq_true_eq]
    exact_mod_cast (by norm_num : (900 : ℚ) < 2000)
  · rw [EnrichTimeGeo.processUser_map_geoJump]
    norm_num [EnrichTimeGeo.sortByTs, EnrichTimeGeo.insertByTs,
      EnrichTimeGeo.chainSpeeds, EnrichTimeGeo.speedOf, List.zip_cons_cons,
      EnrichTimeGeo.geoJumpOf, decide_eq_false_iff_not]
    exact_mod_cast (by norm_num : (10 : ℚ) ≤ 900)

/-- C5 witness: a concrete geolocated pair 2 hours apart at abstract
distance 42 km gets speed 21 km/h, and a zero-elapsed pair gets an
infinite speed. -/
theorem C5_speed_and_flag_witness :
    (EnrichTimeGeo.speedOf (fun _ _ => 42)
      (some { user := "u", ts := 0, country := none, lat := some 1,
              lon := some 2 })
      { user := "u", ts := 1, country := none, lat := some 3,
        lon := some 4 } =
      some (((fun (_ _ : ℚ × ℚ) => (42 : ℚ)) ((1 : ℚ), (2 : ℚ))
        ((3 : ℚ), (4 : ℚ)) / ((1 : ℚ) - 0) : ℚ) : WithTop ℚ)) ∧
    (EnrichTimeGeo.speedOf (fun _ _ => 42)
      (some { user := "u", ts := 5, country := none, lat := some 1,
              lon := some 2 })
      { user := "u", ts := 5, country := none, lat := some 3,
        lon := some 4 } = some ⊤) := by
  have h1 := C5_speed_and_flag (fun _ _ => 42)
    { user := "u", ts := 0, country := none, lat := some 1, lon := some 2 }
    { user := "u", ts := 1, country := none, lat := some 3, lon := some 4 }
    1 2 3 4
  have h2 := C5_speed_and_flag (fun _ _ => 42)
    { user := "u", ts := 5, country := none, lat := some 1, lon := some 2 }
    { user := "u", ts := 5, country := none, lat := some 3, lon := some 4 }
    1 2 3 4
  exact ⟨(h1.2.1 rfl rfl rfl rfl).2 (by simp),
    (h2.2.1 rfl rfl rfl rfl).1 (by simp)⟩

namespace EnrichTimeGeo

theorem meanQ_const (l : List ℚ) (k : ℚ) (h : ∀ x ∈ l, x = k)
    (hne : l ≠ []) : meanQ l = k := by
  unfold meanQ
  rw [List.sum_eq_card_nsmul l k h, nsmul_eq_mul]
  have hlen : (l.length : ℚ) ≠ 0 := by
    simpa using List.length_pos.mpr hne |>.ne.symm
  field_simp

theorem ssqOf_const (l : List ℚ) (k : ℚ) (h : ∀ x ∈ l, x = k) :
    ssqOf l = 0 := by
  cases hl : l with
  | nil => rfl
  | cons a t =>
    rw [← hl]
    unfold ssqOf
    refine List.sum_eq_zero (fun x hx => ?_)
    rcases List.mem_map.mp hx with ⟨v, hv, rfl⟩
    rw [h v hv, meanQ_const l k h (by rw [hl]; exact List.cons_ne_nil a t)]
    ring

end EnrichTimeGeo

/-- C6: the `HourZ` of a bucket is `(count - mean) / std` over the per-user
occupied hour buckets with the sample standard deviation, a zero (or
undefined single-bucket) standard deviation mapped to 0 instead of a
division fault; a user whose per-hour counts are all equal — in particular
constant across all 24 hours — gets `HourZ = 0` on every event. -/
theorem C6_hourz_zero (counts : List ℚ) (c : ℚ) (d : EnrichTimeGeo.DistFn)
    (hl : Bool) (evs : List EnrichTimeGeo.LoginEvent) (k : ℚ) :
    ((counts.length ≤ 1 ∨ EnrichTimeGeo.ssqOf counts = 0) →
      EnrichTimeGeo.hourZ counts c = 0) ∧
    (¬ (counts.length ≤ 1 ∨ EnrichTimeGeo.ssqOf counts = 0) →
      EnrichTimeGeo.hourZ counts c =
        ((c : ℝ) - (EnrichTimeGeo.meanQ counts : ℝ)) /
          Real.sqrt (EnrichTimeGeo.sampleVar counts)) ∧
    ((∀ h ∈ ((EnrichTimeGeo.sortByTs evs).map EnrichTimeGeo.hourOf).dedup,
        ((((EnrichTimeGeo.sortByTs evs).map EnrichTimeGeo.hourOf).count h :
          ℚ)) = k) →
      ∀ row ∈ EnrichTimeGeo.processUser d hl evs, row.hourZ = 0) := by
  refine ⟨?_, ?_, ?_⟩
  · intro h
    unfold EnrichTimeGeo.hourZ
    rw [if_pos h]
  · intro h
    unfold EnrichTimeGeo.hourZ
    rw [if_neg h]
  · intro hk row hrow
    unfold EnrichTimeGeo.processUser at hrow
    rcases List.mem_map.mp hrow with ⟨p, _, rfl⟩
    have hconst : ∀ x ∈ EnrichTimeGeo.bucketCounts
        ((EnrichTimeGeo.sortByTs evs).map EnrichTimeGeo.hourOf), x = k := by
      intro x hx
      rcases List.mem_map.mp hx with ⟨h, hh, rfl⟩
      exact hk h hh
    have hz := EnrichTimeGeo.ssqOf_const _ k hconst
    show EnrichTimeGeo.hourZ _ _ = 0
    unfold EnrichTimeGeo.hourZ
    rw [if_pos (Or.inr hz)]

/-- C6 witness: a two-bucket population with equal counts has `HourZ = 0`,
and a user logging in exactly once in each of the 24 hours gets
`HourZ = 0` on all 24 events. -/
theorem C6_hourz_zero_witness :
    EnrichTimeGeo.hourZ [5, 5] 5 = 0 ∧
    (∀ row ∈ EnrichTimeGeo.processUser (fun _ _ => 0) false
      ((List.range 24).map (fun i =>
        { user := "u", ts := (i : ℚ), country := none, lat := none,
          lon := none })), row.hourZ = 0) := by
  have h1 := C6_hourz_zero [5, 5] 5 (fun _ _ => 0) false [] 0
  have h2 := C6_hourz_zero [] 0 (fun _ _ => 0) false
    ((List.range 24).map (fun i =>
      { user := "u", ts := (i : ℚ), country := none, lat := none,
        lon := none })) 1
  exact ⟨h1.1 (Or.inr (EnrichTimeGeo.ssqOf_const [5, 5] 5 (by decide))),
    h2.2.2 (by decide)⟩
